import Mathlib

/-!
# Verification of the CryptoTradeSimulator core (src/trade_simulator.py)

Shallow embedding of the two core classes:

* `OrderBook` — two Python dicts `bids`, `asks` mapping price to size.
  A Python dict is modelled as an insertion-ordered association list with
  unique keys; `dictInsert` overwrites in place or appends (dict assignment),
  `dictErase` removes the key (Python `del`), `dictLookup` models `in` / `[]`.
  `OrderBook.update` applies one `(side, price, size)` level update exactly as
  the loop body of `OrderBook.update` in the source (lines 24–28): size zero
  deletes the price if present, any other size is stored as given, with no
  validation of price or sign of size.

* `TradeSimulator._simulate_trade` (lines 47–77) — walks the sorted opposite
  side, consuming `min(remaining, size)` per level, breaking once remaining
  drops to zero; average price, slippage, fee and the report fields follow the
  source line by line.  The slippage baseline is `book_side[0][0]` for a buy
  and `book_side[-1][0]` for a sell (line 67).

Python floats are modelled as rationals (`ℚ`); the source performs only
field arithmetic and comparisons on them.
-/

/-- One price level: a (price, size) pair of Python floats, modelled in ℚ. -/
abbrev Level : Type := ℚ × ℚ

/-- Python dict lookup `m[price]` / membership `price in m` on an
insertion-ordered association list. -/
def dictLookup : List Level → ℚ → Option ℚ
  | [], _ => none
  | (p, s) :: rest, price => if p = price then some s else dictLookup rest price

/-- Python dict assignment `m[price] = size`: overwrite in place if the key is
present, otherwise append at the end (dicts preserve insertion order). -/
def dictInsert : List Level → ℚ → ℚ → List Level
  | [], price, size => [(price, size)]
  | (p, s) :: rest, price, size =>
    if p = price then (p, size) :: rest
    else (p, s) :: dictInsert rest price size

/-- Python `del m[price]`: remove the (unique) entry with that key. -/
def dictErase : List Level → ℚ → List Level
  | [], _ => []
  | (p, s) :: rest, price => if p = price then rest else (p, s) :: dictErase rest price

/-- The `OrderBook` class: `self.bids` and `self.asks`, two dicts
mapping price to size. -/
structure OrderBook where
  bids : List Level
  asks : List Level
deriving DecidableEq, Repr

/-- `OrderBook.__init__`: both sides start empty. -/
def OrderBook.init : OrderBook := ⟨[], []⟩

/-- Which dict a level update targets (the `"bids"` / `"asks"` key of the
update message). -/
inductive Side where
  | bid
  | ask
deriving DecidableEq, Repr

/-- Body of the inner loop of `OrderBook.update` for a single
`(price, size)` pair on one side (source lines 24–28):
`if size == 0: if price in book_side: del book_side[price]`
`else: book_side[price] = size`. -/
def applyLevel (m : List Level) (price size : ℚ) : List Level :=
  if size = 0 then
    if (dictLookup m price).isSome then dictErase m price else m
  else
    dictInsert m price size

/-- `OrderBook.update` restricted to one `(side, price, size)` tuple; the
full method iterates this over every tuple of the message. -/
def OrderBook.update (ob : OrderBook) (side : Side) (price size : ℚ) : OrderBook :=
  match side with
  | .bid => { ob with bids := applyLevel ob.bids price size }
  | .ask => { ob with asks := applyLevel ob.asks price size }

/-- The sort key of `get_sorted_bids`: descending by price
(`key=lambda x: x[0], reverse=True`). -/
def bidOrder (a b : Level) : Prop := b.1 ≤ a.1

/-- The sort key of `get_sorted_asks`: ascending by price
(`key=lambda x: x[0]`). -/
def askOrder (a b : Level) : Prop := a.1 ≤ b.1

instance : DecidableRel bidOrder := fun a b => inferInstanceAs (Decidable (b.1 ≤ a.1))

instance : DecidableRel askOrder := fun a b => inferInstanceAs (Decidable (a.1 ≤ b.1))

instance : IsTotal Level bidOrder := ⟨fun a b => le_total b.1 a.1⟩

instance : IsTotal Level askOrder := ⟨fun a b => le_total a.1 b.1⟩

instance : IsTrans Level bidOrder := ⟨fun _ _ _ h1 h2 => le_trans h2 h1⟩

instance : IsTrans Level askOrder := ⟨fun _ _ _ h1 h2 => le_trans h1 h2⟩

/-- `get_sorted_bids`: the bid items sorted descending by price. -/
def OrderBook.get_sorted_bids (ob : OrderBook) : List Level :=
  ob.bids.insertionSort bidOrder

/-- `get_sorted_asks`: the ask items sorted ascending by price. -/
def OrderBook.get_sorted_asks (ob : OrderBook) : List Level :=
  ob.asks.insertionSort askOrder

/-- Result dict of `_simulate_trade`. -/
structure FillReport where
  executed_quantity : ℚ
  average_price : ℚ
  total_cost : ℚ
  slippage : ℚ
  fee : ℚ
  remaining_quantity : ℚ
deriving DecidableEq, Repr

/-- The `for price, size in book_side:` loop of `_simulate_trade`
(source lines 53–60), threading the three accumulators; returns
`(total_cost, remaining_qty, executed_qty)`.  Each level consumes
`min(remaining_qty, size)`, and the loop breaks once `remaining_qty <= 0`. -/
def tradeLoop : List Level → ℚ → ℚ → ℚ → ℚ × ℚ × ℚ
  | [], remaining_qty, total_cost, executed_qty =>
    (total_cost, remaining_qty, executed_qty)
  | (price, size) :: rest, remaining_qty, total_cost, executed_qty =>
    let trade_qty := min remaining_qty size
    let total_cost := total_cost + trade_qty * price
    let remaining_qty := remaining_qty - trade_qty
    let executed_qty := executed_qty + trade_qty
    if remaining_qty ≤ 0 then (total_cost, remaining_qty, executed_qty)
    else tradeLoop rest remaining_qty total_cost executed_qty

/-- `TAKER_FEE_RATE = 0.0006`. -/
def TAKER_FEE_RATE : ℚ := 6 / 10000

/-- The `TradeSimulator` class: a reference to the order book and the
configured taker fee rate. -/
structure TradeSimulator where
  orderbook : OrderBook
  taker_fee_rate : ℚ
deriving DecidableEq, Repr

/-- `TradeSimulator._simulate_trade` (source lines 47–77). -/
def TradeSimulator.simulate_trade (sim : TradeSimulator) (quantity : ℚ)
    (is_buy : Bool) : FillReport :=
  let book_side :=
    if is_buy then sim.orderbook.get_sorted_asks else sim.orderbook.get_sorted_bids
  let res := tradeLoop book_side quantity 0 0
  let total_cost := res.1
  let remaining_qty := res.2.1
  let executed_qty := res.2.2
  let avg_price := if executed_qty = 0 then 0 else total_cost / executed_qty
  let slippage :=
    if executed_qty > 0 then
      avg_price -
        (if is_buy then ((book_side.head?).getD (0, 0)).1
         else ((book_side.getLast?).getD (0, 0)).1)
    else 0
  let fee := total_cost * sim.taker_fee_rate
  { executed_quantity := executed_qty
    average_price := avg_price
    total_cost := total_cost
    slippage := slippage
    fee := fee
    remaining_quantity := remaining_qty }

/-- `simulate_buy`. -/
def TradeSimulator.simulate_buy (sim : TradeSimulator) (quantity : ℚ) : FillReport :=
  sim.simulate_trade quantity true

/-- `simulate_sell`. -/
def TradeSimulator.simulate_sell (sim : TradeSimulator) (quantity : ℚ) : FillReport :=
  sim.simulate_trade quantity false

/-! ## Lemmas on the dict model -/

theorem dictLookup_dictInsert_self (m : List Level) (p s : ℚ) :
    dictLookup (dictInsert m p s) p = some s := by
  induction m with
  | nil => simp [dictInsert, dictLookup]
  | cons hd tl ih =>
    obtain ⟨a, b⟩ := hd
    by_cases h : a = p
    · simp [dictInsert, dictLookup, h]
    · simp [dictInsert, dictLookup, h, ih]

theorem mem_dictInsert_self (m : List Level) (p s : ℚ) :
    (p, s) ∈ dictInsert m p s := by
  induction m with
  | nil => simp [dictInsert]
  | cons hd tl ih =>
    obtain ⟨a, b⟩ := hd
    by_cases h : a = p
    · simp [dictInsert, h]
    · simp only [dictInsert, if_neg h, List.mem_cons]
      exact Or.inr ih

theorem mem_keys_dictInsert (m : List Level) (p s q : ℚ) :
    q ∈ (dictInsert m p s).map Prod.fst ↔ q ∈ m.map Prod.fst ∨ q = p := by
  induction m with
  | nil => simp [dictInsert]
  | cons hd tl ih =>
    obtain ⟨a, b⟩ := hd
    by_cases h : a = p
    · subst h
      simp [dictInsert]
      tauto
    · simp [dictInsert, h, ih]
      tauto

theorem nodup_keys_dictInsert (m : List Level) (p s : ℚ)
    (h : (m.map Prod.fst).Nodup) : ((dictInsert m p s).map Prod.fst).Nodup := by
  induction m with
  | nil => simp [dictInsert]
  | cons hd tl ih =>
    obtain ⟨a, b⟩ := hd
    simp only [List.map_cons, List.nodup_cons] at h
    by_cases hp : a = p
    · simp only [dictInsert, if_pos hp, List.map_cons, List.nodup_cons]
      exact h
    · simp only [dictInsert, if_neg hp, List.map_cons, List.nodup_cons]
      refine ⟨?_, ih h.2⟩
      rw [mem_keys_dictInsert]
      push_neg
      exact ⟨h.1, hp⟩

theorem forall_snd_dictInsert (m : List Level) (p s : ℚ) (P : ℚ → Prop)
    (hm : ∀ l ∈ m, P l.2) (hs : P s) : ∀ l ∈ dictInsert m p s, P l.2 := by
  induction m with
  | nil => simpa [dictInsert] using hs
  | cons hd tl ih =>
    obtain ⟨a, b⟩ := hd
    by_cases h : a = p
    · simp only [dictInsert, if_pos h, List.mem_cons]
      rintro l (rfl | hl)
      · exact hs
      · exact hm l (List.mem_cons_of_mem _ hl)
    · simp only [dictInsert, if_neg h, List.mem_cons]
      rintro l (rfl | hl)
      · exact hm (a, b) (List.mem_cons_self _ _)
      · exact ih (fun x hx => hm x (List.mem_cons_of_mem _ hx)) l hl

theorem dictErase_sublist (m : List Level) (p : ℚ) :
    List.Sublist (dictErase m p) m := by
  induction m with
  | nil => simp [dictErase]
  | cons hd tl ih =>
    obtain ⟨a, b⟩ := hd
    by_cases h : a = p
    · simp only [dictErase, if_pos h]
      exact List.sublist_cons_self _ _
    · simp only [dictErase, if_neg h]
      exact ih.cons₂ _

theorem dictLookup_eq_none_iff (m : List Level) (p : ℚ) :
    dictLookup m p = none ↔ p ∉ m.map Prod.fst := by
  induction m with
  | nil => simp [dictLookup]
  | cons hd tl ih =>
    obtain ⟨a, b⟩ := hd
    by_cases h : a = p
    · simp [dictLookup, h]
    · simp only [dictLookup, if_neg h, ih, List.map_cons, List.mem_cons]
      constructor
      · rintro hn (rfl | hmem)
        · exact h rfl
        · exact hn hmem
      · intro hn
        exact fun hmem => hn (Or.inr hmem)

theorem dictLookup_dictErase_self (m : List Level) (p : ℚ)
    (h : (m.map Prod.fst).Nodup) : dictLookup (dictErase m p) p = none := by
  induction m with
  | nil => simp [dictErase, dictLookup]
  | cons hd tl ih =>
    obtain ⟨a, b⟩ := hd
    simp only [List.map_cons, List.nodup_cons] at h
    by_cases hp : a = p
    · subst hp
      simp only [dictErase, if_pos rfl]
      exact (dictLookup_eq_none_iff tl a).mpr h.1
    · simp only [dictErase, if_neg hp, dictLookup, if_neg hp]
      exact ih h.2

theorem dictInsert_idem (m : List Level) (p s : ℚ) :
    dictInsert (dictInsert m p s) p s = dictInsert m p s := by
  induction m with
  | nil => simp [dictInsert]
  | cons hd tl ih =>
    obtain ⟨a, b⟩ := hd
    by_cases h : a = p
    · simp [dictInsert, h]
    · simp [dictInsert, h, ih]

theorem applyLevel_idem (m : List Level) (p s : ℚ)
    (h : (m.map Prod.fst).Nodup) :
    applyLevel (applyLevel m p s) p s = applyLevel m p s := by
  by_cases hs : s = 0
  · subst hs
    cases hcase : dictLookup m p with
    | none => simp [applyLevel, hcase]
    | some v => simp [applyLevel, hcase, dictLookup_dictErase_self m p h]
  · simp [applyLevel, hs, dictInsert_idem]

theorem applyLevel_zero_absent (m : List Level) (p : ℚ)
    (h : dictLookup m p = none) : applyLevel m p 0 = m := by
  simp [applyLevel, h]

/-- The representation invariant of one side of the book: unique prices
(as in any Python dict) and strictly positive sizes. -/
def sideWF (m : List Level) : Prop :=
  (m.map Prod.fst).Nodup ∧ ∀ l ∈ m, 0 < l.2

theorem sideWF_nil : sideWF [] := by simp [sideWF]

theorem sideWF_applyLevel (m : List Level) (p s : ℚ)
    (hm : sideWF m) (hs : 0 ≤ s) : sideWF (applyLevel m p s) := by
  by_cases h0 : s = 0
  · subst h0
    cases hcase : dictLookup m p with
    | none => simpa [applyLevel, hcase] using hm
    | some v =>
      simp only [applyLevel, if_pos rfl, hcase, Option.isSome_some, if_true]
      exact ⟨hm.1.sublist ((dictErase_sublist m p).map Prod.fst),
        fun l hl => hm.2 l ((dictErase_sublist m p).subset hl)⟩
  · simp only [applyLevel, if_neg h0]
    exact ⟨nodup_keys_dictInsert m p s hm.1,
      forall_snd_dictInsert m p s _ hm.2 (lt_of_le_of_ne hs (Ne.symm h0))⟩

/-! ## Lemmas on the OrderBook -/

/-- The dict a side selector refers to (`book_side` in the source). -/
def OrderBook.sideLevels (ob : OrderBook) : Side → List Level
  | .bid => ob.bids
  | .ask => ob.asks

/-- Representation invariant of a whole book. -/
def bookWF (ob : OrderBook) : Prop := sideWF ob.bids ∧ sideWF ob.asks

theorem bookWF_init : bookWF OrderBook.init := ⟨sideWF_nil, sideWF_nil⟩

theorem bookWF_update (ob : OrderBook) (side : Side) (p s : ℚ)
    (h : bookWF ob) (hs : 0 ≤ s) : bookWF (ob.update side p s) := by
  cases side
  · exact ⟨sideWF_applyLevel _ p s h.1 hs, h.2⟩
  · exact ⟨h.1, sideWF_applyLevel _ p s h.2 hs⟩

/-- A sequence of level-update calls applied in order. -/
def applyUpdates (us : List (Side × ℚ × ℚ)) (ob : OrderBook) : OrderBook :=
  us.foldl (fun b u => b.update u.1 u.2.1 u.2.2) ob

theorem bookWF_applyUpdates (us : List (Side × ℚ × ℚ)) (ob : OrderBook)
    (h : bookWF ob) (hs : ∀ u ∈ us, 0 ≤ u.2.2) : bookWF (applyUpdates us ob) := by
  induction us generalizing ob with
  | nil => simpa [applyUpdates] using h
  | cons u rest ih =>
    simp only [applyUpdates, List.foldl_cons]
    exact ih (ob.update u.1 u.2.1 u.2.2)
      (bookWF_update ob u.1 u.2.1 u.2.2 h (hs u (List.mem_cons_self _ _)))
      (fun v hv => hs v (List.mem_cons_of_mem _ hv))

theorem sorted_bids_wf (m : List Level) (h : sideWF m) :
    ((List.insertionSort bidOrder m).map Prod.fst).Nodup ∧
    (∀ l ∈ List.insertionSort bidOrder m, 0 < l.2) ∧
    (List.insertionSort bidOrder m).Pairwise (fun a b : Level => b.1 < a.1) := by
  have hperm : List.Perm (List.insertionSort bidOrder m) m := List.perm_insertionSort bidOrder m
  have hnd : ((List.insertionSort bidOrder m).map Prod.fst).Nodup :=
    h.1.perm (hperm.map Prod.fst).symm
  refine ⟨hnd, fun l hl => h.2 l (hperm.subset hl), ?_⟩
  have hsorted : (List.insertionSort bidOrder m).Pairwise bidOrder :=
    List.sorted_insertionSort bidOrder m
  have hne : (List.insertionSort bidOrder m).Pairwise (fun a b : Level => a.1 ≠ b.1) :=
    List.pairwise_map.mp hnd
  exact (hsorted.and hne).imp (fun hab => lt_of_le_of_ne hab.1 (Ne.symm hab.2))

theorem sorted_asks_wf (m : List Level) (h : sideWF m) :
    ((List.insertionSort askOrder m).map Prod.fst).Nodup ∧
    (∀ l ∈ List.insertionSort askOrder m, 0 < l.2) ∧
    (List.insertionSort askOrder m).Pairwise (fun a b : Level => a.1 < b.1) := by
  have hperm : List.Perm (List.insertionSort askOrder m) m := List.perm_insertionSort askOrder m
  have hnd : ((List.insertionSort askOrder m).map Prod.fst).Nodup :=
    h.1.perm (hperm.map Prod.fst).symm
  refine ⟨hnd, fun l hl => h.2 l (hperm.subset hl), ?_⟩
  have hsorted : (List.insertionSort askOrder m).Pairwise askOrder :=
    List.sorted_insertionSort askOrder m
  have hne : (List.insertionSort askOrder m).Pairwise (fun a b : Level => a.1 ≠ b.1) :=
    List.pairwise_map.mp hnd
  exact (hsorted.and hne).imp (fun hab => lt_of_le_of_ne hab.1 hab.2)

/-! ## Claims about the OrderBook -/

/-- C5: for every sequence of level updates with positive price and
nonnegative size applied to the initially empty book, the sorted bid view has
only positive sizes, no duplicate price, and is strictly descending by price,
and the sorted ask view has only positive sizes, no duplicate price, and is
strictly ascending by price. -/
theorem sorted_views_invariant (us : List (Side × ℚ × ℚ))
    (h : ∀ u ∈ us, 0 < u.2.1 ∧ 0 ≤ u.2.2) :
    (∀ l ∈ (applyUpdates us OrderBook.init).get_sorted_bids, 0 < l.2) ∧
    (((applyUpdates us OrderBook.init).get_sorted_bids.map Prod.fst).Nodup) ∧
    (applyUpdates us OrderBook.init).get_sorted_bids.Pairwise
      (fun a b : Level => b.1 < a.1) ∧
    (∀ l ∈ (applyUpdates us OrderBook.init).get_sorted_asks, 0 < l.2) ∧
    (((applyUpdates us OrderBook.init).get_sorted_asks.map Prod.fst).Nodup) ∧
    (applyUpdates us OrderBook.init).get_sorted_asks.Pairwise
      (fun a b : Level => a.1 < b.1) := by
  have hwf := bookWF_applyUpdates us OrderBook.init bookWF_init
    (fun u hu => (h u hu).2)
  obtain ⟨h1, h2, h3⟩ := sorted_bids_wf _ hwf.1
  obtain ⟨h4, h5, h6⟩ := sorted_asks_wf _ hwf.2
  exact ⟨h2, h1, h3, h5, h4, h6⟩

/-- Witness for C5 at the concrete update sequence
bid 100↦1, bid 99↦2, ask 101↦1, bid 99↦0. -/
theorem sorted_views_invariant_witness :
    (∀ l ∈ (applyUpdates
        [(Side.bid, 100, 1), (Side.bid, 99, 2), (Side.ask, 101, 1), (Side.bid, 99, 0)]
        OrderBook.init).get_sorted_bids, 0 < l.2) ∧
    (((applyUpdates
        [(Side.bid, 100, 1), (Side.bid, 99, 2), (Side.ask, 101, 1), (Side.bid, 99, 0)]
        OrderBook.init).get_sorted_bids.map Prod.fst).Nodup) ∧
    (applyUpdates
        [(Side.bid, 100, 1), (Side.bid, 99, 2), (Side.ask, 101, 1), (Side.bid, 99, 0)]
        OrderBook.init).get_sorted_bids.Pairwise (fun a b : Level => b.1 < a.1) ∧
    (∀ l ∈ (applyUpdates
        [(Side.bid, 100, 1), (Side.bid, 99, 2), (Side.ask, 101, 1), (Side.bid, 99, 0)]
        OrderBook.init).get_sorted_asks, 0 < l.2) ∧
    (((applyUpdates
        [(Side.bid, 100, 1), (Side.bid, 99, 2), (Side.ask, 101, 1), (Side.bid, 99, 0)]
        OrderBook.init).get_sorted_asks.map Prod.fst).Nodup) ∧
    (applyUpdates
        [(Side.bid, 100, 1), (Side.bid, 99, 2), (Side.ask, 101, 1), (Side.bid, 99, 0)]
        OrderBook.init).get_sorted_asks.Pairwise (fun a b : Level => a.1 < b.1) :=
  sorted_views_invariant
    [(Side.bid, 100, 1), (Side.bid, 99, 2), (Side.ask, 101, 1), (Side.bid, 99, 0)]
    (by decide)

/-- C7: applying the same (side, price, size) update twice leaves the book
exactly as applying it once, for every dict-representable book state (unique
prices per side); and a size-0 update for an absent price is a no-op. -/
theorem update_idem (ob : OrderBook) (side : Side) (p s : ℚ)
    (hb : (ob.bids.map Prod.fst).Nodup) (ha : (ob.asks.map Prod.fst).Nodup) :
    ((ob.update side p s).update side p s = ob.update side p s) ∧
    (dictLookup (ob.sideLevels side) p = none → ob.update side p 0 = ob) := by
  constructor
  · cases side
    · simp only [OrderBook.update]
      rw [applyLevel_idem _ p s hb]
    · simp only [OrderBook.update]
      rw [applyLevel_idem _ p s ha]
  · intro hnone
    cases side
    · simp only [OrderBook.sideLevels] at hnone
      simp only [OrderBook.update, applyLevel_zero_absent _ p hnone]
    · simp only [OrderBook.sideLevels] at hnone
      simp only [OrderBook.update, applyLevel_zero_absent _ p hnone]

/-- Witness for C7 at a concrete book: bids {100↦1}, asks {101↦2},
update bid 100↦3 twice, and a size-0 update at the absent bid price 42. -/
theorem update_idem_witness :
    (((OrderBook.mk [(100, 1)] [(101, 2)]).update .bid 100 3).update .bid 100 3 =
      (OrderBook.mk [(100, 1)] [(101, 2)]).update .bid 100 3) ∧
    ((OrderBook.mk [(100, 1)] [(101, 2)]).update .bid 42 0 =
      OrderBook.mk [(100, 1)] [(101, 2)]) :=
  ⟨(update_idem (OrderBook.mk [(100, 1)] [(101, 2)]) .bid 100 3
      (by decide) (by decide)).1,
   (update_idem (OrderBook.mk [(100, 1)] [(101, 2)]) .bid 42 0
      (by decide) (by decide)).2 (by decide)⟩

/-- C9: an update with a negative size is stored as-is (only size exactly 0
removes), so the updated side maps the price to the negative size and the
sorted view contains a level of negative size. -/
theorem update_negative_size (ob : OrderBook) (p s : ℚ) (hs : s < 0) :
    dictLookup ((ob.update .bid p s).bids) p = some s ∧
    (p, s) ∈ (ob.update .bid p s).get_sorted_bids ∧
    dictLookup ((ob.update .ask p s).asks) p = some s ∧
    (p, s) ∈ (ob.update .ask p s).get_sorted_asks := by
  have hne : s ≠ 0 := ne_of_lt hs
  refine ⟨?_, ?_, ?_, ?_⟩
  · simp only [OrderBook.update, applyLevel, if_neg hne]
    exact dictLookup_dictInsert_self ob.bids p s
  · simp only [OrderBook.update, OrderBook.get_sorted_bids, applyLevel, if_neg hne]
    exact (List.mem_insertionSort bidOrder).mpr (mem_dictInsert_self ob.bids p s)
  · simp only [OrderBook.update, applyLevel, if_neg hne]
    exact dictLookup_dictInsert_self ob.asks p s
  · simp only [OrderBook.update, OrderBook.get_sorted_asks, applyLevel, if_neg hne]
    exact (List.mem_insertionSort askOrder).mpr (mem_dictInsert_self ob.asks p s)

/-- Witness for C9 at the empty book, price 5, size −2. -/
theorem update_negative_size_witness :
    dictLookup ((OrderBook.init.update .bid 5 (-2)).bids) 5 = some (-2) ∧
    (5, -2) ∈ (OrderBook.init.update .bid 5 (-2)).get_sorted_bids ∧
    dictLookup ((OrderBook.init.update .ask 5 (-2)).asks) 5 = some (-2) ∧
    (5, -2) ∈ (OrderBook.init.update .ask 5 (-2)).get_sorted_asks :=
  update_negative_size OrderBook.init 5 (-2) (by norm_num)

/-- C3 counterexample: an update with price 0 and size 1 is not silently
rejected — it inserts the level (0, 1), changing the book. -/
theorem update_price_zero_inserts :
    (OrderBook.init.update .bid 0 1).bids = [(0, 1)] ∧
    OrderBook.init.update .bid 0 1 ≠ OrderBook.init := by
  decide

/-- C3 amended: the level-update operation performs no price validation; a
zero price with nonzero size is inserted (or overwritten) like any other
price, on either side. -/
theorem update_price_zero_behaves_normally (ob : OrderBook) (s : ℚ) (hs : s ≠ 0) :
    dictLookup ((ob.update .bid 0 s).bids) 0 = some s ∧
    dictLookup ((ob.update .ask 0 s).asks) 0 = some s := by
  simp only [OrderBook.update, applyLevel, if_neg hs]
  exact ⟨dictLookup_dictInsert_self _ 0 s, dictLookup_dictInsert_self _ 0 s⟩

/-- Witness for the amended C3 at the empty book and size 1. -/
theorem update_price_zero_behaves_normally_witness :
    dictLookup ((OrderBook.init.update .bid 0 1).bids) 0 = some 1 ∧
    dictLookup ((OrderBook.init.update .ask 0 1).asks) 0 = some 1 :=
  update_price_zero_behaves_normally OrderBook.init 1 (by norm_num)

/-! ## Lemmas on the trade loop -/

theorem tradeLoop_conserve : ∀ (levels : List Level) (r tc ex : ℚ),
    (tradeLoop levels r tc ex).2.1 + (tradeLoop levels r tc ex).2.2 = r + ex
  | [], r, tc, ex => rfl
  | (p, s) :: rest, r, tc, ex => by
    simp only [tradeLoop]
    split
    · simp only
      ring
    · rw [tradeLoop_conserve rest]
      ring

theorem tradeLoop_remaining_nonneg : ∀ (levels : List Level) (r tc ex : ℚ),
    0 ≤ r → 0 ≤ (tradeLoop levels r tc ex).2.1
  | [], _, _, _, hr => hr
  | (p, s) :: rest, r, tc, ex, hr => by
    have h1 : 0 ≤ r - min r s := sub_nonneg.mpr (min_le_left r s)
    simp only [tradeLoop]
    split
    · exact h1
    · exact tradeLoop_remaining_nonneg rest _ _ _ h1

theorem tradeLoop_executed : ∀ (levels : List Level) (r tc ex : ℚ),
    0 ≤ r → (∀ l ∈ levels, 0 ≤ l.2) →
    (tradeLoop levels r tc ex).2.2 = ex + min r ((levels.map Prod.snd).sum)
  | [], r, tc, ex, hr, _ => by
    simp [tradeLoop, min_eq_right hr]
  | (p, s) :: rest, r, tc, ex, hr, hs => by
    have hs0 : 0 ≤ s := hs (p, s) (List.mem_cons_self _ _)
    have hrest : ∀ l ∈ rest, 0 ≤ l.2 := fun l hl => hs l (List.mem_cons_of_mem _ hl)
    have hsum : 0 ≤ (rest.map Prod.snd).sum := by
      apply List.sum_nonneg
      intro x hx
      obtain ⟨l, hl, rfl⟩ := List.mem_map.mp hx
      exact hrest l hl
    simp only [tradeLoop, List.map_cons, List.sum_cons]
    split
    · next hbreak =>
      have hmin : min r s = r := le_antisymm (min_le_left _ _) (by linarith)
      have hkey : min r (s + (rest.map Prod.snd).sum) = r := by
        apply min_eq_left
        calc r = min r s := hmin.symm
        _ ≤ s := min_le_right _ _
        _ ≤ s + (rest.map Prod.snd).sum := le_add_of_nonneg_right hsum
      simp only [hmin, hkey]
    · next hbreak =>
      push_neg at hbreak
      have hlt : min r s < r := by linarith
      have hmin : min r s = s := by
        rcases le_total r s with h | h
        · exact absurd (min_eq_left h) (by intro he; rw [he] at hlt; exact lt_irrefl r hlt)
        · exact min_eq_right h
      rw [tradeLoop_executed rest _ _ _ (by linarith) hrest]
      rw [hmin] at hbreak ⊢
      have hkey : s + min (r - s) ((rest.map Prod.snd).sum) =
          min r (s + (rest.map Prod.snd).sum) := by
        rw [← min_add_add_left]
        congr 1
        ring
      linarith [hkey]

theorem tradeLoop_cost_lower (p0 : ℚ) : ∀ (levels : List Level) (r tc ex : ℚ),
    0 ≤ r → (∀ l ∈ levels, p0 ≤ l.1 ∧ 0 ≤ l.2) →
    p0 * ((tradeLoop levels r tc ex).2.2 - ex) ≤ (tradeLoop levels r tc ex).1 - tc
  | [], r, tc, ex, hr, _ => by simp [tradeLoop]
  | (p, s) :: rest, r, tc, ex, hr, hl => by
    have hp : p0 ≤ p := (hl (p, s) (List.mem_cons_self _ _)).1
    have hs0 : 0 ≤ s := (hl (p, s) (List.mem_cons_self _ _)).2
    have ht : 0 ≤ min r s := le_min hr hs0
    have hmul : p0 * min r s ≤ p * min r s := mul_le_mul_of_nonneg_right hp ht
    simp only [tradeLoop]
    split
    · next hbreak =>
      have e1 : p0 * (ex + min r s - ex) = p0 * min r s := by ring
      have e2 : tc + min r s * p - tc = p * min r s := by ring
      rw [e1, e2]
      exact hmul
    · next hbreak =>
      push_neg at hbreak
      have hrec := tradeLoop_cost_lower p0 rest (r - min r s) (tc + min r s * p)
        (ex + min r s) (by linarith) (fun l hl' => hl l (List.mem_cons_of_mem _ hl'))
      have expand : p0 * ((tradeLoop rest (r - min r s) (tc + min r s * p)
            (ex + min r s)).2.2 - ex) =
          p0 * ((tradeLoop rest (r - min r s) (tc + min r s * p)
            (ex + min r s)).2.2 - (ex + min r s)) + p0 * min r s := by ring
      rw [expand]
      linarith [hrec, hmul]

theorem tradeLoop_zero (levels : List Level) (tc ex : ℚ)
    (hs : ∀ l ∈ levels, 0 ≤ l.2) :
    tradeLoop levels 0 tc ex = (tc, 0, ex) := by
  cases levels with
  | nil => rfl
  | cons hd tl =>
    obtain ⟨p, s⟩ := hd
    have hs0 : 0 ≤ s := hs (p, s) (List.mem_cons_self _ _)
    have hmin : min (0 : ℚ) s = 0 := min_eq_left hs0
    simp [tradeLoop, hmin]

/-! ## Projection lemmas for the simulator -/

theorem simulate_buy_executed (sim : TradeSimulator) (q : ℚ) :
    (sim.simulate_buy q).executed_quantity =
      (tradeLoop sim.orderbook.get_sorted_asks q 0 0).2.2 := rfl

theorem simulate_buy_remaining (sim : TradeSimulator) (q : ℚ) :
    (sim.simulate_buy q).remaining_quantity =
      (tradeLoop sim.orderbook.get_sorted_asks q 0 0).2.1 := rfl

theorem simulate_buy_total_cost (sim : TradeSimulator) (q : ℚ) :
    (sim.simulate_buy q).total_cost =
      (tradeLoop sim.orderbook.get_sorted_asks q 0 0).1 := rfl

theorem simulate_buy_slippage (sim : TradeSimulator) (q : ℚ) :
    (sim.simulate_buy q).slippage =
      if 0 < (tradeLoop sim.orderbook.get_sorted_asks q 0 0).2.2 then
        (if (tradeLoop sim.orderbook.get_sorted_asks q 0 0).2.2 = 0 then 0
         else (tradeLoop sim.orderbook.get_sorted_asks q 0 0).1 /
           (tradeLoop sim.orderbook.get_sorted_asks q 0 0).2.2) -
        ((sim.orderbook.get_sorted_asks.head?).getD (0, 0)).1
      else 0 := rfl

theorem simulate_sell_executed (sim : TradeSimulator) (q : ℚ) :
    (sim.simulate_sell q).executed_quantity =
      (tradeLoop sim.orderbook.get_sorted_bids q 0 0).2.2 := rfl

theorem simulate_sell_remaining (sim : TradeSimulator) (q : ℚ) :
    (sim.simulate_sell q).remaining_quantity =
      (tradeLoop sim.orderbook.get_sorted_bids q 0 0).2.1 := rfl

example :
    (TradeSimulator.mk ⟨[], [(100, 1), (101, 2)]⟩ TAKER_FEE_RATE).simulate_buy
      (3/2) =
    { executed_quantity := 3/2, average_price := 301/3, total_cost := 301/2,
      slippage := 1/3, fee := (301/2) * (6/10000), remaining_quantity := 0 } := by
  norm_num [TradeSimulator.simulate_buy, TradeSimulator.simulate_trade,
    OrderBook.get_sorted_asks, List.insertionSort, List.orderedInsert, askOrder,
    tradeLoop, min_def, TAKER_FEE_RATE]

example :
    ((TradeSimulator.mk ⟨[(100, 1), (99, 2)], []⟩ TAKER_FEE_RATE).simulate_sell
      2).slippage = 1/2 := by
  norm_num [TradeSimulator.simulate_sell, TradeSimulator.simulate_trade,
    OrderBook.get_sorted_bids, List.insertionSort, List.orderedInsert, bidOrder,
    tradeLoop, min_def, TAKER_FEE_RATE]

/-! ## Claims about the simulator -/

/-- C4: with the opposite side empty, a positive-quantity simulation returns a
report with executed quantity, average price, total cost, slippage and fee all
zero and the full quantity remaining, for both directions. -/
theorem simulate_empty_side (ob : OrderBook) (fee q : ℚ) (hq : 0 < q) :
    (ob.asks = [] →
      (TradeSimulator.mk ob fee).simulate_buy q = ⟨0, 0, 0, 0, 0, q⟩) ∧
    (ob.bids = [] →
      (TradeSimulator.mk ob fee).simulate_sell q = ⟨0, 0, 0, 0, 0, q⟩) := by
  constructor
  · intro h
    simp [TradeSimulator.simulate_buy, TradeSimulator.simulate_trade,
      OrderBook.get_sorted_asks, h, List.insertionSort, tradeLoop]
  · intro h
    simp [TradeSimulator.simulate_sell, TradeSimulator.simulate_trade,
      OrderBook.get_sorted_bids, h, List.insertionSort, tradeLoop]

/-- Witness for C4 at quantity 1, with one resting level on the other side. -/
theorem simulate_empty_side_witness :
    (TradeSimulator.mk (OrderBook.mk [(100, 1)] []) TAKER_FEE_RATE).simulate_buy 1 =
      ⟨0, 0, 0, 0, 0, 1⟩ ∧
    (TradeSimulator.mk (OrderBook.mk [] [(100, 1)]) TAKER_FEE_RATE).simulate_sell 1 =
      ⟨0, 0, 0, 0, 0, 1⟩ :=
  ⟨(simulate_empty_side (OrderBook.mk [(100, 1)] []) TAKER_FEE_RATE 1 (by norm_num)).1
      rfl,
   (simulate_empty_side (OrderBook.mk [] [(100, 1)]) TAKER_FEE_RATE 1 (by norm_num)).2
      rfl⟩

/-- C6: for every book whose resting sizes are nonnegative and every positive
quantity, in both directions the report satisfies
executed + remaining = quantity, remaining ≥ 0, and
executed = min(quantity, total resting size on the consumed side). -/
theorem simulate_fill_accounting (ob : OrderBook) (fee q : ℚ)
    (hb : ∀ l ∈ ob.bids, 0 ≤ l.2) (ha : ∀ l ∈ ob.asks, 0 ≤ l.2) (hq : 0 < q) :
    ((TradeSimulator.mk ob fee).simulate_buy q).executed_quantity +
        ((TradeSimulator.mk ob fee).simulate_buy q).remaining_quantity = q ∧
    0 ≤ ((TradeSimulator.mk ob fee).simulate_buy q).remaining_quantity ∧
    ((TradeSimulator.mk ob fee).simulate_buy q).executed_quantity =
      min q ((ob.asks.map Prod.snd).sum) ∧
    ((TradeSimulator.mk ob fee).simulate_sell q).executed_quantity +
        ((TradeSimulator.mk ob fee).simulate_sell q).remaining_quantity = q ∧
    0 ≤ ((TradeSimulator.mk ob fee).simulate_sell q).remaining_quantity ∧
    ((TradeSimulator.mk ob fee).simulate_sell q).executed_quantity =
      min q ((ob.bids.map Prod.snd).sum) := by
  have hva : ∀ l ∈ ob.get_sorted_asks, 0 ≤ l.2 := fun l hl =>
    ha l ((List.perm_insertionSort askOrder ob.asks).subset hl)
  have hvb : ∀ l ∈ ob.get_sorted_bids, 0 ≤ l.2 := fun l hl =>
    hb l ((List.perm_insertionSort bidOrder ob.bids).subset hl)
  have hsa : ((ob.get_sorted_asks).map Prod.snd).sum = (ob.asks.map Prod.snd).sum :=
    ((List.perm_insertionSort askOrder ob.asks).map Prod.snd).sum_eq
  have hsb : ((ob.get_sorted_bids).map Prod.snd).sum = (ob.bids.map Prod.snd).sum :=
    ((List.perm_insertionSort bidOrder ob.bids).map Prod.snd).sum_eq
  refine ⟨?_, ?_, ?_, ?_, ?_, ?_⟩
  · rw [simulate_buy_executed, simulate_buy_remaining]
    have hc := tradeLoop_conserve ob.get_sorted_asks q 0 0
    linarith [hc]
  · rw [simulate_buy_remaining]
    exact tradeLoop_remaining_nonneg _ q 0 0 (le_of_lt hq)
  · rw [simulate_buy_executed,
      tradeLoop_executed ob.get_sorted_asks q 0 0 (le_of_lt hq) hva, hsa]
    ring
  · rw [simulate_sell_executed, simulate_sell_remaining]
    have hc := tradeLoop_conserve ob.get_sorted_bids q 0 0
    linarith [hc]
  · rw [simulate_sell_remaining]
    exact tradeLoop_remaining_nonneg _ q 0 0 (le_of_lt hq)
  · rw [simulate_sell_executed,
      tradeLoop_executed ob.get_sorted_bids q 0 0 (le_of_lt hq) hvb, hsb]
    ring

/-- Witness for C6 at asks {100↦1}, quantity 5, including the claim's concrete
example values: executed 1, remaining 4, total cost 100. -/
theorem simulate_fill_accounting_witness :
    ((TradeSimulator.mk (OrderBook.mk [] [(100, 1)]) TAKER_FEE_RATE).simulate_buy
        5).executed_quantity = 1 ∧
    ((TradeSimulator.mk (OrderBook.mk [] [(100, 1)]) TAKER_FEE_RATE).simulate_buy
        5).remaining_quantity = 4 ∧
    ((TradeSimulator.mk (OrderBook.mk [] [(100, 1)]) TAKER_FEE_RATE).simulate_buy
        5).total_cost = 100 ∧
    ((TradeSimulator.mk (OrderBook.mk [] [(100, 1)]) TAKER_FEE_RATE).simulate_buy
        5).executed_quantity =
      min 5 ((([((100 : ℚ), (1 : ℚ))]).map Prod.snd).sum) :=
  ⟨by norm_num [simulate_buy_executed, OrderBook.get_sorted_asks,
      List.insertionSort, List.orderedInsert, tradeLoop, min_def],
   by norm_num [simulate_buy_remaining, OrderBook.get_sorted_asks,
      List.insertionSort, List.orderedInsert, tradeLoop, min_def],
   by norm_num [simulate_buy_total_cost, OrderBook.get_sorted_asks,
      List.insertionSort, List.orderedInsert, tradeLoop, min_def],
   (simulate_fill_accounting (OrderBook.mk [] [(100, 1)]) TAKER_FEE_RATE 5
      (by simp) (by norm_num) (by norm_num)).2.2.1⟩

/-- `_simulate_trade` as a state transformer: its body reads `self.orderbook`
only through the two snapshot getters (each `sorted(...)` builds a fresh list)
and assigns no attribute of `self` or of the book, so the post-state equals
the pre-state and only a report is produced. -/
def simulateStep (sim : TradeSimulator) (quantity : ℚ) (is_buy : Bool) :
    TradeSimulator × FillReport :=
  (sim, sim.simulate_trade quantity is_buy)

/-- C8: a simulate call never mutates the book — the bid and ask mappings
after the call equal those before it — and the report is a pure function of
the book's two mappings, the fee rate, the quantity and the direction. -/
theorem simulate_no_mutation (sim : TradeSimulator) (q : ℚ) (b : Bool) :
    (simulateStep sim q b).1.orderbook.bids = sim.orderbook.bids ∧
    (simulateStep sim q b).1.orderbook.asks = sim.orderbook.asks ∧
    (simulateStep sim q b).1 = sim ∧
    (simulateStep sim q b).2 =
      TradeSimulator.simulate_trade
        ⟨⟨sim.orderbook.bids, sim.orderbook.asks⟩, sim.taker_fee_rate⟩ q b :=
  ⟨rfl, rfl, rfl, rfl⟩

/-- C2 counterexample: simulate with quantity 0 or −1 is not rejected — the
call runs to completion and returns an ordinary FillReport (for quantity 0 the
all-zero report; for −1 a report with negative executed quantity and fee). -/
theorem simulate_nonpositive_quantity_returns_report :
    (TradeSimulator.mk (OrderBook.mk [] [(100, 1)]) TAKER_FEE_RATE).simulate_buy 0 =
      ⟨0, 0, 0, 0, 0, 0⟩ ∧
    (TradeSimulator.mk (OrderBook.mk [] [(100, 1)]) TAKER_FEE_RATE).simulate_buy (-1) =
      ⟨-1, 100, -100, 0, -3/50, 0⟩ ∧
    (TradeSimulator.mk (OrderBook.mk [(100, 1)] []) TAKER_FEE_RATE).simulate_sell 0 =
      ⟨0, 0, 0, 0, 0, 0⟩ := by
  refine ⟨?_, ?_, ?_⟩ <;>
    norm_num [TradeSimulator.simulate_buy, TradeSimulator.simulate_sell,
      TradeSimulator.simulate_trade, OrderBook.get_sorted_asks,
      OrderBook.get_sorted_bids, List.insertionSort, List.orderedInsert,
      tradeLoop, min_def, TAKER_FEE_RATE]

/-- C2 amended: a non-positive quantity is not rejected; the call executes the
normal path and returns a report.  In particular, on any book whose resting
sizes are nonnegative, quantity 0 yields the all-zero report in both
directions, indistinguishable in shape from a no-liquidity report. -/
theorem simulate_zero_quantity_zero_report (ob : OrderBook) (fee : ℚ) (b : Bool)
    (hb : ∀ l ∈ ob.bids, 0 ≤ l.2) (ha : ∀ l ∈ ob.asks, 0 ≤ l.2) :
    TradeSimulator.simulate_trade ⟨ob, fee⟩ 0 b = ⟨0, 0, 0, 0, 0, 0⟩ := by
  cases b with
  | false =>
    have hview : ∀ l ∈ ob.get_sorted_bids, 0 ≤ l.2 := fun l hl =>
      hb l ((List.perm_insertionSort bidOrder ob.bids).subset hl)
    simp [TradeSimulator.simulate_trade, tradeLoop_zero _ 0 0 hview]
  | true =>
    have hview : ∀ l ∈ ob.get_sorted_asks, 0 ≤ l.2 := fun l hl =>
      ha l ((List.perm_insertionSort askOrder ob.asks).subset hl)
    simp [TradeSimulator.simulate_trade, tradeLoop_zero _ 0 0 hview]

/-- Witness for the amended C2 at bids {100↦1}, asks {101↦2}, buy direction. -/
theorem simulate_zero_quantity_zero_report_witness :
    TradeSimulator.simulate_trade ⟨OrderBook.mk [(100, 1)] [(101, 2)],
      TAKER_FEE_RATE⟩ 0 true = ⟨0, 0, 0, 0, 0, 0⟩ :=
  simulate_zero_quantity_zero_report (OrderBook.mk [(100, 1)] [(101, 2)])
    TAKER_FEE_RATE true (by norm_num) (by norm_num)

/-- C10: when all ask sizes are positive and a positive quantity executes a
positive amount, the buy slippage is nonnegative: the ask view is ascending,
so the volume-weighted average price is at least the best (first) ask, which
is the buy baseline. -/
theorem buy_slippage_nonneg (ob : OrderBook) (fee q : ℚ)
    (ha : ∀ l ∈ ob.asks, 0 < l.2) (hq : 0 < q)
    (hex : 0 < ((TradeSimulator.mk ob fee).simulate_buy q).executed_quantity) :
    0 ≤ ((TradeSimulator.mk ob fee).simulate_buy q).slippage := by
  rw [simulate_buy_executed] at hex
  rw [simulate_buy_slippage]
  rw [if_pos hex, if_neg (ne_of_gt hex)]
  cases hv : (TradeSimulator.mk ob fee).orderbook.get_sorted_asks with
  | nil =>
    exfalso
    rw [hv] at hex
    simp [tradeLoop] at hex
  | cons hd t =>
    rw [hv] at hex
    have hsorted : (hd :: t).Pairwise askOrder := by
      rw [← hv]
      exact List.sorted_insertionSort askOrder ob.asks
    have hmem : ∀ l ∈ hd :: t, l ∈ ob.asks := by
      intro l hl
      rw [← hv] at hl
      exact (List.perm_insertionSort askOrder ob.asks).subset hl
    have hp0 : ∀ l ∈ hd :: t, hd.1 ≤ l.1 ∧ 0 ≤ l.2 := by
      intro l hl
      refine ⟨?_, le_of_lt (ha l (hmem l hl))⟩
      rcases List.mem_cons.mp hl with rfl | hl'
      · exact le_refl _
      · exact (List.pairwise_cons.mp hsorted).1 l hl'
    have hcost := tradeLoop_cost_lower hd.1 (hd :: t) q 0 0 (le_of_lt hq) hp0
    simp only [List.head?_cons, Option.getD_some]
    rw [sub_nonneg, le_div_iff hex]
    linarith [hcost]

/-- Witness for C10 at asks {100↦1, 101↦2}, quantity 3/2. -/
theorem buy_slippage_nonneg_witness :
    0 < ((TradeSimulator.mk (OrderBook.mk [] [(100, 1), (101, 2)])
        TAKER_FEE_RATE).simulate_buy (3/2)).executed_quantity ∧
    0 ≤ ((TradeSimulator.mk (OrderBook.mk [] [(100, 1), (101, 2)])
        TAKER_FEE_RATE).simulate_buy (3/2)).slippage :=
  have hex : 0 < ((TradeSimulator.mk (OrderBook.mk [] [(100, 1), (101, 2)])
      TAKER_FEE_RATE).simulate_buy (3/2)).executed_quantity := by
    norm_num [simulate_buy_executed, OrderBook.get_sorted_asks,
      List.insertionSort, List.orderedInsert, tradeLoop, min_def]
  ⟨hex, buy_slippage_nonneg (OrderBook.mk [] [(100, 1), (101, 2)]) TAKER_FEE_RATE
    (3/2) (by norm_num) (by norm_num) hex⟩

/-- C1 (evaluation at the failing input): with bids {100↦1, 99↦2},
simulate_sell 2 executes 2 at average price 99.5 but reports slippage
+0.5 = 99.5 − 99, using `book_side[-1][0]` — the last, lowest bid of the
descending view — as baseline, not −0.5 = 99.5 − 100 from the first (best)
bid as the claim states. -/
theorem sell_slippage_uses_lowest_bid :
    ((TradeSimulator.mk (OrderBook.mk [(100, 1), (99, 2)] [])
        TAKER_FEE_RATE).simulate_sell 2).executed_quantity = 2 ∧
    ((TradeSimulator.mk (OrderBook.mk [(100, 1), (99, 2)] [])
        TAKER_FEE_RATE).simulate_sell 2).average_price = 199/2 ∧
    ((TradeSimulator.mk (OrderBook.mk [(100, 1), (99, 2)] [])
        TAKER_FEE_RATE).simulate_sell 2).slippage = 1/2 ∧
    ((TradeSimulator.mk (OrderBook.mk [(100, 1), (99, 2)] [])
        TAKER_FEE_RATE).simulate_sell 2).slippage ≠ 199/2 - 100 := by
  refine ⟨?_, ?_, ?_, ?_⟩ <;>
    norm_num [TradeSimulator.simulate_sell, TradeSimulator.simulate_trade,
      OrderBook.get_sorted_bids, List.insertionSort, List.orderedInsert,
      bidOrder, tradeLoop, min_def, TAKER_FEE_RATE]
